import Mathlib

/-!
Shallow embedding of the SeisComP scqc availability plugin
(src/apps/processing/scqc/plugins/qcplugin_availability.cpp).

Times are modelled as rational numbers of seconds from an arbitrary epoch:
Core::Time is a UTC instant of microsecond resolution and a
default-constructed Core::Time is the epoch itself, modelled as 0.
C++ double arithmetic on times and rates is modelled exactly over ℚ.
The single place where the source's IEEE arithmetic can leave the real
numbers, the expression 100.0 * effectiveSamples / estimatedSamples
evaluated with estimatedSamples == 0, is modelled as Option.none.

Core::TimeWindow, the QcBuffer accessors and Core::Time are declared in
headers that are not part of this source tree; they are modelled from the
spec (sections 3, 4.1 and 4.2), as marked on each definition.
-/

namespace Seiscomp

namespace Private

/-- Source lines 31-33: int round(double val) returns
static_cast int applied to (val + 0.5).  The C++ float-to-int cast
truncates toward zero, hence floor for nonnegative arguments and
ceiling for negative ones. -/
def round (val : ℚ) : ℤ :=
  if 0 ≤ val + 1/2 then ⌊val + 1/2⌋ else ⌈val + 1/2⌉

end Private

/-- Modelled from the spec (section 3): a QcParameter observation record.
recordSamplingFrequency is in Hz, the sentinel -1 marking a synthetic
timeout entry. -/
structure QcParameter where
  recordStartTime : ℚ
  recordEndTime : ℚ
  recordSamplingFrequency : ℚ
  parameter : ℚ
  deriving DecidableEq

/-- Modelled from the spec (section 4.1): Core::TimeWindow, a half-open
interval of instants. -/
structure TimeWindow where
  startTime : ℚ
  endTime : ℚ
  deriving DecidableEq

/-- Modelled from the spec (section 4.1): length(A) = A.end - A.start
in seconds. -/
def TimeWindow.length (A : TimeWindow) : ℚ := A.endTime - A.startTime

/-- Modelled from the spec (section 4.1): contains(A, B) iff
A.start ≤ B.start and B.end ≤ A.end. -/
def TimeWindow.contains (A B : TimeWindow) : Prop :=
  A.startTime ≤ B.startTime ∧ B.endTime ≤ A.endTime

instance (A B : TimeWindow) : Decidable (TimeWindow.contains A B) :=
  inferInstanceAs (Decidable (A.startTime ≤ B.startTime ∧ B.endTime ≤ A.endTime))

/-- Modelled from the spec (section 4.1): overlaps(A, B) iff
A.start < B.end and B.start < A.end. -/
def TimeWindow.overlaps (A B : TimeWindow) : Prop :=
  A.startTime < B.endTime ∧ B.startTime < A.endTime

instance (A B : TimeWindow) : Decidable (TimeWindow.overlaps A B) :=
  inferInstanceAs (Decidable (A.startTime < B.endTime ∧ B.startTime < A.endTime))

/-- Modelled from the spec (section 4.2): a QcBuffer is the ordered list of
QcParameter entries of one stream, in arrival order. -/
abbrev QcBuffer := List QcParameter

/-- Modelled from the spec (section 4.2): buf-startTime() is the front
entry's recordStartTime. -/
def QcBuffer.startTime : QcBuffer → ℚ
  | [] => 0
  | e :: _ => e.recordStartTime

/-- Modelled from the spec (section 4.2): buf-endTime() is the back
entry's recordEndTime. -/
def QcBuffer.endTime (buf : QcBuffer) : ℚ :=
  match buf.getLast? with
  | none => 0
  | some e => e.recordEndTime

/-- Modelled from the spec (section 4.2): buf-length() in seconds. -/
def QcBuffer.lengthSec (buf : QcBuffer) : ℚ :=
  QcBuffer.endTime buf - QcBuffer.startTime buf

/-- Source line 196: the sampling frequency of the buffer's front entry. -/
def QcBuffer.frontSamplingFrequency : QcBuffer → ℚ
  | [] => 0
  | e :: _ => e.recordSamplingFrequency

/-- Source line 202: the estimated sample count
round(length(analysis window) * front sampling frequency). -/
def estimatedSamples (buf : QcBuffer) : ℤ :=
  Private.round
    (TimeWindow.length ⟨QcBuffer.startTime buf, QcBuffer.endTime buf⟩
      * QcBuffer.frontSamplingFrequency buf)

/-- Source lines 218-227: the gap/overlap detection step of the loop.
Detection runs only when lastTime differs from a default-constructed
Core::Time (the zero instant); diff is the next record's start minus
lastTime, compared against the half-sample tolerance
0.5 / recordSamplingFrequency of the entry itself.  The two comparisons
are independent if-statements in the source. -/
def gapOverlapUpdate (lastTime : ℚ) (qcp : QcParameter) (gaps overs : ℤ) :
    ℤ × ℤ :=
  if lastTime ≠ 0 then
    (if 1/2 / qcp.recordSamplingFrequency
        < qcp.recordStartTime - lastTime then gaps + 1 else gaps,
     if qcp.recordStartTime - lastTime
        < -(1/2 / qcp.recordSamplingFrequency) then overs + 1 else overs)
  else (gaps, overs)

/-- Source lines 207-258: the entry loop of
QcPluginAvailability::availability, with state
(effectiveSamples, gapCount, overlapCount, lastTime).
Timeout entries (rate -1) are skipped; then, after the gap/overlap
detection step and the lastTime update, the availability classification:
record inside window, window inside record (sets effectiveSamples to
estimatedSamples and breaks), record overlapping the window head or tail,
or no overlap. -/
def availLoop (tw : TimeWindow) (est : ℤ) (eff gaps overs : ℤ)
    (lastTime : ℚ) : List QcParameter → ℤ × ℤ × ℤ
  | [] => (eff, gaps, overs)
  | qcp :: rest =>
    if qcp.recordSamplingFrequency = -1 then
      availLoop tw est eff gaps overs lastTime rest
    else
      if TimeWindow.contains tw ⟨qcp.recordStartTime, qcp.recordEndTime⟩ then
        availLoop tw est
          (eff + Private.round
            (TimeWindow.length ⟨qcp.recordStartTime, qcp.recordEndTime⟩
              * qcp.recordSamplingFrequency))
          (gapOverlapUpdate lastTime qcp gaps overs).1
          (gapOverlapUpdate lastTime qcp gaps overs).2
          qcp.recordEndTime rest
      else if TimeWindow.contains ⟨qcp.recordStartTime, qcp.recordEndTime⟩ tw then
        (est, (gapOverlapUpdate lastTime qcp gaps overs).1,
          (gapOverlapUpdate lastTime qcp gaps overs).2)
      else if TimeWindow.overlaps tw ⟨qcp.recordStartTime, qcp.recordEndTime⟩ then
        if 0 < tw.startTime - qcp.recordStartTime then
          availLoop tw est
            (eff + Private.round
              (TimeWindow.length ⟨qcp.recordStartTime, qcp.recordEndTime⟩
                * qcp.recordSamplingFrequency)
              - Private.round ((tw.startTime - qcp.recordStartTime)
                * qcp.recordSamplingFrequency))
            (gapOverlapUpdate lastTime qcp gaps overs).1
            (gapOverlapUpdate lastTime qcp gaps overs).2
            qcp.recordEndTime rest
        else if 0 < qcp.recordEndTime - tw.endTime then
          availLoop tw est
            (eff + Private.round
              (TimeWindow.length ⟨qcp.recordStartTime, qcp.recordEndTime⟩
                * qcp.recordSamplingFrequency)
              - Private.round ((qcp.recordEndTime - tw.endTime)
                * qcp.recordSamplingFrequency))
            (gapOverlapUpdate lastTime qcp gaps overs).1
            (gapOverlapUpdate lastTime qcp gaps overs).2
            qcp.recordEndTime rest
        else
          availLoop tw est eff
            (gapOverlapUpdate lastTime qcp gaps overs).1
            (gapOverlapUpdate lastTime qcp gaps overs).2
            qcp.recordEndTime rest
      else
        availLoop tw est eff
          (gapOverlapUpdate lastTime qcp gaps overs).1
          (gapOverlapUpdate lastTime qcp gaps overs).2
          qcp.recordEndTime rest

/-- Source lines 184-269: QcPluginAvailability::availability.
Empty buffer, or a timeout entry at the front, returns (0, 0, 0).
Otherwise the loop runs over the whole buffer starting from
effectiveSamples = 0 and lastTime = Core::Time() = 0, and the result is
100 * effectiveSamples / estimatedSamples clamped from above at 100,
together with the two counts.  The source has no estimatedSamples == 0
guard: in that case the C++ divides by zero (an IEEE non-real result),
modelled here as none. -/
def availability (buf : QcBuffer) : Option ℚ × ℤ × ℤ :=
  if buf = [] then (some 0, 0, 0)
  else if QcBuffer.frontSamplingFrequency buf = -1 then (some 0, 0, 0)
  else
    let tw : TimeWindow := ⟨QcBuffer.startTime buf, QcBuffer.endTime buf⟩
    let est : ℤ := estimatedSamples buf
    let res := availLoop tw est 0 0 0 0 buf
    let ratio : ℚ := 100 * (res.1 : ℚ) / (est : ℚ)
    (if est = 0 then none
     else if 100 < ratio then some 100 else some ratio,
     res.2.1, res.2.2)

/-- Modelled from the spec (section 3): the fields a WaveformQuality report
carries.  The value is an Option to accommodate the unguarded division of
the availability metric. -/
structure WaveformQuality where
  waveformID : String
  creatorID : String
  created : ℚ
  startTime : ℚ
  endTime : ℚ
  type : String
  parameter : String
  value : Option ℚ
  lowerUncertainty : ℚ
  upperUncertainty : ℚ
  windowLength : ℚ
  deriving DecidableEq

/-- Source lines 113-167: QcPluginAvailability::generateReport.  On an
empty buffer nothing is emitted.  Otherwise exactly three reports are
pushed, in order availability, gaps count, overlaps count; the three
Core::Time::UTC() calls of the source (lines 128, 142, 156) are modelled
as three successive reads clock 0, clock 1, clock 2 of a clock stream.
All other fields are as set at lines 125-165. -/
def generateReport (clock : ℕ → ℚ) (wid cid : String) (buf : QcBuffer) :
    List WaveformQuality :=
  if buf = [] then []
  else
    let result := availability buf
    let mkReport : ℕ → String → Option ℚ → WaveformQuality := fun i pname v =>
      { waveformID := wid
        creatorID := cid
        created := clock i
        startTime := QcBuffer.startTime buf
        endTime := QcBuffer.endTime buf
        type := "report"
        parameter := pname
        value := v
        lowerUncertainty := 0
        upperUncertainty := 0
        windowLength := QcBuffer.lengthSec buf }
    [mkReport 0 "availability" result.1,
     mkReport 1 "gaps count" (some (result.2.1 : ℚ)),
     mkReport 2 "overlaps count" (some (result.2.2 : ℚ))]

/-- The mutable state of the plugin that timeoutTask reads and writes:
the stream's buffer and the _lastRecordEndTime member. -/
structure PluginState where
  buffer : QcBuffer
  lastRecordEndTime : ℚ
  deriving DecidableEq

/-- Source lines 85-106: QcPluginAvailability::timeoutTask.  On an empty
buffer nothing happens.  Otherwise _lastRecordEndTime is refreshed from
the buffer's back entry only when that entry is a real record (sampling
frequency different from -1); a timeout entry
(recordStartTime = _lastRecordEndTime, recordEndTime = now,
rate -1, parameter = the span) is appended.  now stands for the
Core::Time::UTC() read at line 93. -/
def timeoutTask (now : ℚ) (s : PluginState) : PluginState × Option QcParameter :=
  match s.buffer.getLast? with
  | none => (s, none)
  | some back =>
    let lret : ℚ :=
      if back.recordSamplingFrequency ≠ -1 then back.recordEndTime
      else s.lastRecordEndTime
    let qcp : QcParameter := ⟨lret, now, -1, now - lret⟩
    (⟨s.buffer ++ [qcp], lret⟩, some qcp)

/-- The anchor a timeoutTask invocation stamps on the injected entry:
the back entry's recordEndTime when the back entry is a real record,
the stored _lastRecordEndTime otherwise (source lines 95-100). -/
def timeoutAnchor (s : PluginState) : ℚ :=
  match s.buffer.getLast? with
  | none => s.lastRecordEndTime
  | some back =>
    if back.recordSamplingFrequency ≠ -1 then back.recordEndTime
    else s.lastRecordEndTime

/-- Successive timeoutTask invocations at the given clock readings, with
the injected entries collected in order. -/
def iterTimeout (s : PluginState) : List ℚ → PluginState × List QcParameter
  | [] => (s, [])
  | t :: ts =>
    let r := timeoutTask t s
    let r2 := iterTimeout r.1 ts
    (r2.1, r.2.toList ++ r2.2)

/-- Spec section 3 invariant on entries: a real record has a positive rate
and a nonempty window, and the only other permitted rate is the timeout
sentinel -1. -/
def ValidEntry (e : QcParameter) : Prop :=
  (0 < e.recordSamplingFrequency ∧ e.recordStartTime < e.recordEndTime)
    ∨ e.recordSamplingFrequency = -1

instance (e : QcParameter) : Decidable (ValidEntry e) :=
  inferInstanceAs (Decidable
    ((0 < e.recordSamplingFrequency ∧ e.recordStartTime < e.recordEndTime)
      ∨ e.recordSamplingFrequency = -1))

/-- The time dilation that leaves the evaluator invariant: all instants
scaled by k, all sampling frequencies divided by k. -/
def scaleEntry (k : ℚ) (e : QcParameter) : QcParameter :=
  ⟨k * e.recordStartTime, k * e.recordEndTime,
    e.recordSamplingFrequency / k, e.parameter⟩

/-- The transformation named by the spec's rate-independence property as
written: record times (hence durations and separations) and sampling
frequencies all scaled by the same factor k. -/
def sameFactorScale (k : ℚ) (e : QcParameter) : QcParameter :=
  ⟨k * e.recordStartTime, k * e.recordEndTime,
    k * e.recordSamplingFrequency, e.parameter⟩

/-- A strictly advancing clock stream, for exercising the three separate
Core::Time::UTC() reads of generateReport. -/
def tickClock (n : ℕ) : ℚ := n

/-- A default report value, used only as the fallback of List.getD. -/
def dfltWq : WaveformQuality :=
  ⟨"", "", 0, 0, 0, "", "", none, 0, 0, 0⟩

end Seiscomp

namespace Seiscomp

/-! ### Rounding helper lemmas -/

lemma round_le_round {x y : ℚ} (h : x ≤ y) : Private.round x ≤ Private.round y := by
  unfold Private.round
  split_ifs with h1 h2 h2
  · exact Int.floor_le_floor (by linarith)
  · exact absurd (by linarith : (0:ℚ) ≤ y + 1/2) h2
  · exact le_trans (Int.ceil_le.mpr (by exact_mod_cast (show x + 1/2 ≤ (0:ℚ) by linarith)))
      (Int.floor_nonneg.mpr (by linarith))
  · exact Int.ceil_le_ceil (by linarith)

lemma round_nonneg {x : ℚ} (h : 0 ≤ x) : 0 ≤ Private.round x := by
  unfold Private.round
  rw [if_pos (by linarith : (0:ℚ) ≤ x + 1/2)]
  exact Int.floor_nonneg.mpr (by linarith)

lemma neg_of_round_neg {x : ℚ} (h : Private.round x < 0) : x < 0 := by
  by_contra hx
  push_neg at hx
  exact absurd (round_nonneg hx) (not_le.mpr h)

/-! ### C6 -/

/-- C6, corrected.  The rounding helper computes half-up rounding by C-cast
truncation of val + 0.5: it agrees with floor(x + 0.5) exactly on the
arguments x with x + 0.5 nonnegative, that is x at least -1/2. -/
theorem round_eq_floor_on_nonneg_shift (x : ℚ) (h : -(1/2) ≤ x) :
    Private.round x = ⌊x + 1/2⌋ := by
  unfold Private.round
  rw [if_pos (by linarith)]

theorem round_eq_floor_witness :
    -(1/2 : ℚ) ≤ 3/2 ∧ Private.round (3/2) = ⌊(3:ℚ)/2 + 1/2⌋ :=
  ⟨by norm_num, round_eq_floor_on_nonneg_shift (3/2) (by norm_num)⟩

/-- C6 counterexample: at x = -1 the code computes
static_cast of (-1 + 0.5) = 0, while floor(-1 + 0.5) = -1. -/
theorem round_neg_one_counterexample :
    Private.round (-1) = 0 ∧ (⌊(-1 : ℚ) + 1/2⌋ : ℤ) = -1 := by
  constructor
  · norm_num [Private.round]
  · norm_num

/-! ### C1 -/

/-- C1, confirmed.  Scenario S2: entries (0, 1, 100) and (1.02, 2, 100).
The analysis window is [0, 2), the estimate is round(2 * 100) = 200, the
0.02 boundary difference exceeds the half-sample tolerance 0.5/100, the
loop accumulates 100 + 98 = 198 effective samples and one gap, and the
returned triple is (99.0, 1, 0). -/
theorem one_gap_scenario :
    estimatedSamples [⟨0,1,100,0⟩, ⟨51/50,2,100,0⟩] = 200 ∧
    ((1:ℚ)/2 / 100 < 51/50 - 1) ∧
    availLoop ⟨0, 2⟩ 200 0 0 0 0 [⟨0,1,100,0⟩, ⟨51/50,2,100,0⟩] = (198, 1, 0) ∧
    availability [⟨0,1,100,0⟩, ⟨51/50,2,100,0⟩] = (some 99, 1, 0) := by
  refine ⟨?_, by norm_num, ?_, ?_⟩
  · norm_num [estimatedSamples, Private.round, QcBuffer.startTime, QcBuffer.endTime,
      QcBuffer.frontSamplingFrequency, TimeWindow.length, List.getLast?]
  · norm_num [availLoop, Private.round, TimeWindow.length, TimeWindow.contains,
      TimeWindow.overlaps, gapOverlapUpdate]
  · norm_num [availability, availLoop, estimatedSamples, Private.round,
      QcBuffer.startTime, QcBuffer.endTime, QcBuffer.frontSamplingFrequency,
      TimeWindow.length, TimeWindow.contains, TimeWindow.overlaps,
      gapOverlapUpdate, List.getLast?, List.cons_ne_nil]

/-! ### C2 -/

/-- C2, code bug.  On the single-entry buffer (0, 0.001, 100) the front
entry is a real record and the estimated count rounds to 0, yet the code
has no estimated == 0 guard: line 260 is reached and divides by zero.
The model returns none for the availability component (IEEE NaN in the
source), not the guarded (0, 0, 0) the claim describes. -/
theorem zero_estimated_unguarded :
    QcBuffer.frontSamplingFrequency [⟨0, 1/1000, 100, 0⟩] ≠ -1 ∧
    estimatedSamples [⟨0, 1/1000, 100, 0⟩] = 0 ∧
    availability [⟨0, 1/1000, 100, 0⟩] = (none, 0, 0) := by
  refine ⟨by norm_num [QcBuffer.frontSamplingFrequency], ?_, ?_⟩
  · norm_num [estimatedSamples, Private.round, QcBuffer.startTime, QcBuffer.endTime,
      QcBuffer.frontSamplingFrequency, TimeWindow.length, List.getLast?]
  · norm_num [availability, availLoop, estimatedSamples, Private.round,
      QcBuffer.startTime, QcBuffer.endTime, QcBuffer.frontSamplingFrequency,
      TimeWindow.length, TimeWindow.contains, TimeWindow.overlaps,
      gapOverlapUpdate, List.getLast?, List.cons_ne_nil]

end Seiscomp

namespace Seiscomp

/-! ### C3 counterexample -/

/-- C3 counterexample: the single-entry buffer (0, 0.002, 100) is valid
and fronted by a real record, yet the returned availability is not a
value between 0 and 100: the estimated count rounds to 0 and the
unguarded division leaves the reals (none in the model, NaN in the
source). -/
theorem availability_range_counterexample :
    ValidEntry ⟨0, 1/500, 100, 0⟩ ∧
    QcBuffer.frontSamplingFrequency [⟨0, 1/500, 100, 0⟩] ≠ -1 ∧
    (availability [⟨0, 1/500, 100, 0⟩]).1 = none := by
  refine ⟨Or.inl ⟨by norm_num, by norm_num⟩, by norm_num [QcBuffer.frontSamplingFrequency], ?_⟩
  norm_num [availability, availLoop, estimatedSamples, Private.round,
    QcBuffer.startTime, QcBuffer.endTime, QcBuffer.frontSamplingFrequency,
    TimeWindow.length, TimeWindow.contains, TimeWindow.overlaps,
    gapOverlapUpdate, List.getLast?, List.cons_ne_nil]

/-! ### C7 counterexample -/

/-- C7 counterexample: scaling the two-record buffer
(0, 1, 100), (1.003, 2, 100) by the same factor 2 on record times
(hence durations and separations) and sampling frequencies turns its gap
count from 0 into 1: the 0.003 s boundary difference is under the 0.005 s
tolerance at 100 Hz but its doubling 0.006 s exceeds the 0.0025 s
tolerance at 200 Hz. -/
theorem counts_same_factor_scaling_counterexample :
    List.map (sameFactorScale 2) [⟨0,1,100,0⟩, ⟨1003/1000,2,100,0⟩]
      = [⟨0,2,200,0⟩, ⟨1003/500,4,200,0⟩] ∧
    (availability [⟨0,1,100,0⟩, ⟨1003/1000,2,100,0⟩]).2 = (0, 0) ∧
    (availability [⟨0,2,200,0⟩, ⟨1003/500,4,200,0⟩]).2 = (1, 0) := by
  refine ⟨by norm_num [sameFactorScale], ?_, ?_⟩ <;>
    norm_num [availability, availLoop, estimatedSamples, Private.round,
      QcBuffer.startTime, QcBuffer.endTime, QcBuffer.frontSamplingFrequency,
      TimeWindow.length, TimeWindow.contains, TimeWindow.overlaps,
      gapOverlapUpdate, List.getLast?, List.cons_ne_nil]

/-! ### C4 -/

/-- C4 counterexample: a buffer whose front (and only) entry is a timeout
marker is not empty, so generateReport does emit: the emission is the
full three-report triple. -/
theorem generateReport_timeout_front_emits :
    generateReport tickClock "w" "c" [⟨0, 10, -1, 0⟩] ≠ [] ∧
    (generateReport tickClock "w" "c" [⟨0, 10, -1, 0⟩]).length = 3 := by
  constructor <;> norm_num [generateReport, List.cons_ne_nil]

/-- C4, corrected.  The evaluator returns (0, 0, 0) on an empty buffer and
on a timeout-fronted buffer, and generateReport emits nothing on an empty
buffer; but on a timeout-fronted (non-empty) buffer the three-report
triple is still emitted, carrying the zero values — the source only
checks buf-empty() before emitting. -/
theorem zeros_and_report_emission :
    availability [] = (some 0, 0, 0) ∧
    (∀ (clock : ℕ → ℚ) (wid cid : String), generateReport clock wid cid [] = []) ∧
    ∀ (buf : QcBuffer), buf ≠ [] → QcBuffer.frontSamplingFrequency buf = -1 →
      availability buf = (some 0, 0, 0) ∧
      ∀ (clock : ℕ → ℚ) (wid cid : String),
        (generateReport clock wid cid buf).length = 3 ∧
        List.map WaveformQuality.value (generateReport clock wid cid buf)
          = [some 0, some 0, some 0] := by
  refine ⟨rfl, fun _ _ _ => rfl, ?_⟩
  intro buf hne hfs
  have hav : availability buf = (some 0, 0, 0) := by
    rw [availability, if_neg hne, if_pos hfs]
  refine ⟨hav, ?_⟩
  intro clock wid cid
  constructor
  · simp [generateReport, hne]
  · simp [generateReport, hne, hav]

theorem zeros_and_report_emission_witness :
    availability [⟨0, 10, -1, 0⟩] = (some 0, 0, 0) ∧
    (generateReport tickClock "w" "c" [⟨0, 10, -1, 0⟩]).length = 3 ∧
    List.map WaveformQuality.value (generateReport tickClock "w" "c" [⟨0, 10, -1, 0⟩])
      = [some 0, some 0, some 0] :=
  ⟨(zeros_and_report_emission.2.2 [⟨0, 10, -1, 0⟩] (by simp)
      (by norm_num [QcBuffer.frontSamplingFrequency])).1,
   ((zeros_and_report_emission.2.2 [⟨0, 10, -1, 0⟩] (by simp)
      (by norm_num [QcBuffer.frontSamplingFrequency])).2 tickClock "w" "c").1,
   ((zeros_and_report_emission.2.2 [⟨0, 10, -1, 0⟩] (by simp)
      (by norm_num [QcBuffer.frontSamplingFrequency])).2 tickClock "w" "c").2⟩

end Seiscomp

namespace Seiscomp

/-! ### C8 -/

/-- C8 counterexample: under a clock that advances between the three
Core::Time::UTC() reads of one emission (here by one second per read),
the three reports carry distinct createdAt stamps — the source sets
created by three separate clock reads, so identity is not guaranteed. -/
theorem generateReport_created_distinct :
    (generateReport tickClock "w" "c" [⟨0,10,100,0⟩]).length = 3 ∧
    ((generateReport tickClock "w" "c" [⟨0,10,100,0⟩]).getD 0 dfltWq).created
      ≠ ((generateReport tickClock "w" "c" [⟨0,10,100,0⟩]).getD 1 dfltWq).created := by
  constructor <;> norm_num [generateReport, tickClock, List.getD, List.cons_ne_nil]

/-- C8, corrected.  Every emission on a non-empty buffer is exactly three
reports, in order availability, gaps count, overlaps count, with values
taken from the evaluator result; the three share start = buffer start,
end = buffer end, windowLength = buffer length, type "report" and zero
uncertainties, while the createdAt stamps are the three successive clock
reads and coincide only when the clock does not advance between them. -/
theorem generateReport_shape (clock : ℕ → ℚ) (wid cid : String) (buf : QcBuffer)
    (h : buf ≠ []) :
    (generateReport clock wid cid buf).length = 3 ∧
    List.map WaveformQuality.parameter (generateReport clock wid cid buf)
      = ["availability", "gaps count", "overlaps count"] ∧
    List.map WaveformQuality.value (generateReport clock wid cid buf)
      = [(availability buf).1, some ((availability buf).2.1 : ℚ),
         some ((availability buf).2.2 : ℚ)] ∧
    List.map WaveformQuality.created (generateReport clock wid cid buf)
      = [clock 0, clock 1, clock 2] ∧
    ∀ r ∈ generateReport clock wid cid buf,
      r.startTime = QcBuffer.startTime buf ∧ r.endTime = QcBuffer.endTime buf ∧
      r.windowLength = QcBuffer.lengthSec buf ∧ r.type = "report" ∧
      r.lowerUncertainty = 0 ∧ r.upperUncertainty = 0 := by
  rw [generateReport, if_neg h]
  refine ⟨rfl, rfl, rfl, rfl, ?_⟩
  intro r hr
  simp only [List.mem_cons, List.not_mem_nil, or_false] at hr
  rcases hr with rfl | rfl | rfl <;> exact ⟨rfl, rfl, rfl, rfl, rfl, rfl⟩

theorem generateReport_shape_witness :
    (generateReport tickClock "w" "c" [⟨0,10,100,0⟩]).length = 3 ∧
    List.map WaveformQuality.created (generateReport tickClock "w" "c" [⟨0,10,100,0⟩])
      = [tickClock 0, tickClock 1, tickClock 2] :=
  ⟨(generateReport_shape tickClock "w" "c" _ (by simp)).1,
   (generateReport_shape tickClock "w" "c" _ (by simp)).2.2.2.1⟩

/-! ### C9 -/

lemma timeoutTask_of_ne_nil (now : ℚ) (s : PluginState) (h : s.buffer ≠ []) :
    timeoutTask now s
      = (⟨s.buffer ++ [⟨timeoutAnchor s, now, -1, now - timeoutAnchor s⟩],
          timeoutAnchor s⟩,
         some ⟨timeoutAnchor s, now, -1, now - timeoutAnchor s⟩) := by
  unfold timeoutTask timeoutAnchor
  cases hb : s.buffer.getLast? with
  | none => exact absurd (List.getLast?_eq_none_iff.mp hb) h
  | some back => rfl

lemma iterTimeout_starts : ∀ (ts : List ℚ) (s : PluginState), s.buffer ≠ [] →
    ∀ q ∈ (iterTimeout s ts).2, q.recordStartTime = timeoutAnchor s := by
  intro ts
  induction ts with
  | nil => intro s h q hq; simp [iterTimeout] at hq
  | cons t ts ih =>
    intro s h q hq
    rw [iterTimeout, timeoutTask_of_ne_nil t s h] at hq
    simp only [Option.toList, List.cons_append, List.nil_append, List.mem_cons] at hq
    rcases hq with rfl | hq
    · rfl
    · have hs2 : (⟨s.buffer ++ [⟨timeoutAnchor s, t, -1, t - timeoutAnchor s⟩],
          timeoutAnchor s⟩ : PluginState).buffer ≠ [] := by simp
      rw [ih _ hs2 q hq]
      unfold timeoutAnchor
      simp [List.getLast?_concat]

/-- C9, confirmed.  Injected timeout entries of successive timeoutTask
invocations on a non-empty buffer, with no intervening real record, all
carry the same recordStartTime: the anchor is refreshed from the back
entry only when that entry is a real record, and each injected timeout
entry becomes the new back entry, so the anchor never advances. -/
theorem timeout_anchor_constant (s : PluginState) (ts : List ℚ)
    (h : s.buffer ≠ []) :
    ∀ q1 ∈ (iterTimeout s ts).2, ∀ q2 ∈ (iterTimeout s ts).2,
      q1.recordStartTime = q2.recordStartTime := by
  intro q1 h1 q2 h2
  rw [iterTimeout_starts ts s h q1 h1, iterTimeout_starts ts s h q2 h2]

theorem timeout_anchor_constant_witness :
    (⟨10,20,-1,10⟩ : QcParameter) ∈ (iterTimeout ⟨[⟨0,10,100,0⟩], 0⟩ [20, 30]).2 ∧
    (⟨10,30,-1,20⟩ : QcParameter) ∈ (iterTimeout ⟨[⟨0,10,100,0⟩], 0⟩ [20, 30]).2 ∧
    (⟨10,20,-1,10⟩ : QcParameter).recordStartTime
      = (⟨10,30,-1,20⟩ : QcParameter).recordStartTime := by
  have hmem : (iterTimeout (⟨[⟨0,10,100,0⟩], 0⟩ : PluginState) [20, 30]).2
      = [⟨10,20,-1,10⟩, ⟨10,30,-1,20⟩] := by
    norm_num [iterTimeout, timeoutTask, List.getLast?, Option.toList]
  refine ⟨by rw [hmem]; simp, by rw [hmem]; simp, ?_⟩
  exact timeout_anchor_constant ⟨[⟨0,10,100,0⟩], 0⟩ [20, 30] (by simp)
    ⟨10,20,-1,10⟩ (by rw [hmem]; simp) ⟨10,30,-1,20⟩ (by rw [hmem]; simp)

end Seiscomp

namespace Seiscomp

/-! ### C10 -/

lemma gapOverlapUpdate_sentinel (e : QcParameter) (g o : ℤ) :
    gapOverlapUpdate 0 e g o = (g, o) := by
  simp [gapOverlapUpdate]

lemma availLoop_timeout_cons (tw : TimeWindow) (est eff g o : ℤ) (lt : ℚ)
    (t : QcParameter) (rest : List QcParameter)
    (ht : t.recordSamplingFrequency = -1) :
    availLoop tw est eff g o lt (t :: rest) = availLoop tw est eff g o lt rest := by
  rw [availLoop, if_pos ht]

lemma availLoop_timeouts (tw : TimeWindow) (est : ℤ) :
    ∀ (ts : List QcParameter), (∀ t ∈ ts, t.recordSamplingFrequency = -1) →
    ∀ (eff g o : ℤ) (lt : ℚ) (l : List QcParameter),
      availLoop tw est eff g o lt (ts ++ l) = availLoop tw est eff g o lt l := by
  intro ts
  induction ts with
  | nil => intro _ eff g o lt l; rfl
  | cons t ts ih =>
    intro hts eff g o lt l
    rw [List.cons_append,
      availLoop_timeout_cons tw est eff g o lt t (ts ++ l) (hts t (List.mem_cons_self _ _)),
      ih (fun x hx => hts x (List.mem_cons_of_mem _ hx)) eff g o lt l]

lemma availLoop_single_sentinel (tw : TimeWindow) (est eff g o : ℤ) (e : QcParameter) :
    (availLoop tw est eff g o 0 [e]).2 = (g, o) := by
  simp only [availLoop]
  split_ifs <;> simp [availLoop, gapOverlapUpdate_sentinel]

lemma availLoop_counts_after_zero_end (tw : TimeWindow) (est : ℤ)
    (e1 : QcParameter) (ts : List QcParameter) (e2 e3 : QcParameter)
    (h1 : e1.recordSamplingFrequency ≠ -1) (h0 : e1.recordEndTime = 0)
    (hts : ∀ t ∈ ts, t.recordSamplingFrequency = -1) :
    ∀ (pre : List QcParameter) (eff g o : ℤ) (lt : ℚ),
      (availLoop tw est eff g o lt (pre ++ e1 :: (ts ++ [e2]))).2
        = (availLoop tw est eff g o lt (pre ++ e1 :: (ts ++ [e3]))).2 := by
  intro pre
  induction pre with
  | nil =>
    intro eff g o lt
    simp only [List.nil_append]
    simp only [availLoop]
    simp only [if_neg h1]
    split_ifs <;> try rfl
    all_goals
      rw [h0, availLoop_timeouts tw est ts hts, availLoop_timeouts tw est ts hts,
        availLoop_single_sentinel, availLoop_single_sentinel]
  | cons p pre ih =>
    intro eff g o lt
    simp only [List.cons_append]
    simp only [availLoop]
    split_ifs <;> first | rfl | apply ih

lemma availability_snd (buf : QcBuffer) (hne : buf ≠ [])
    (hfs : QcBuffer.frontSamplingFrequency buf ≠ -1) :
    (availability buf).2
      = (availLoop ⟨QcBuffer.startTime buf, QcBuffer.endTime buf⟩
          (estimatedSamples buf) 0 0 0 0 buf).2 := by
  rw [availability, if_neg hne, if_neg hfs]

/-- C10, confirmed.  The evaluator uses the default-constructed zero
instant as the sentinel for the lastTime chain: the detection step is a
no-op whenever lastTime is 0, and consequently, for a real entry whose
recordEndTime is the zero instant, no gap or overlap is ever counted at
the boundary to the following real entry (possibly separated from it by
timeout entries), whatever that entry's recordStartTime is. -/
theorem sentinel_skips_boundary :
    (∀ (e : QcParameter) (g o : ℤ), gapOverlapUpdate 0 e g o = (g, o)) ∧
    (∀ (pre : List QcParameter) (e1 : QcParameter) (ts : List QcParameter)
       (e2 : QcParameter) (s2 : ℚ),
       e1.recordSamplingFrequency ≠ -1 → e1.recordEndTime = 0 →
       (∀ t ∈ ts, t.recordSamplingFrequency = -1) →
       e2.recordSamplingFrequency ≠ -1 →
       (availability (pre ++ e1 :: (ts ++ [e2]))).2
         = (availability (pre ++ e1 :: (ts ++ [⟨s2, e2.recordEndTime,
             e2.recordSamplingFrequency, e2.parameter⟩]))).2) := by
  refine ⟨fun e g o => gapOverlapUpdate_sentinel e g o, ?_⟩
  intro pre e1 ts e2 s2 h1 h0 hts _h2
  have hne1 : pre ++ e1 :: (ts ++ [e2]) ≠ [] := by cases pre <;> simp
  have hne2 : pre ++ e1 :: (ts ++ [(⟨s2, e2.recordEndTime,
      e2.recordSamplingFrequency, e2.parameter⟩ : QcParameter)]) ≠ [] := by
    cases pre <;> simp
  have hfs : QcBuffer.frontSamplingFrequency (pre ++ e1 :: (ts ++ [e2]))
      = QcBuffer.frontSamplingFrequency (pre ++ e1 :: (ts ++ [(⟨s2, e2.recordEndTime,
          e2.recordSamplingFrequency, e2.parameter⟩ : QcParameter)])) := by
    cases pre <;> rfl
  have hst : QcBuffer.startTime (pre ++ e1 :: (ts ++ [e2]))
      = QcBuffer.startTime (pre ++ e1 :: (ts ++ [(⟨s2, e2.recordEndTime,
          e2.recordSamplingFrequency, e2.parameter⟩ : QcParameter)])) := by
    cases pre <;> rfl
  have hend : QcBuffer.endTime (pre ++ e1 :: (ts ++ [e2]))
      = QcBuffer.endTime (pre ++ e1 :: (ts ++ [(⟨s2, e2.recordEndTime,
          e2.recordSamplingFrequency, e2.parameter⟩ : QcParameter)])) := by
    unfold QcBuffer.endTime
    rw [show pre ++ e1 :: (ts ++ [e2]) = (pre ++ e1 :: ts) ++ [e2] by simp,
      show pre ++ e1 :: (ts ++ [(⟨s2, e2.recordEndTime,
          e2.recordSamplingFrequency, e2.parameter⟩ : QcParameter)])
        = (pre ++ e1 :: ts) ++ [(⟨s2, e2.recordEndTime,
          e2.recordSamplingFrequency, e2.parameter⟩ : QcParameter)] by simp,
      List.getLast?_concat, List.getLast?_concat]
  have hestm : estimatedSamples (pre ++ e1 :: (ts ++ [e2]))
      = estimatedSamples (pre ++ e1 :: (ts ++ [(⟨s2, e2.recordEndTime,
          e2.recordSamplingFrequency, e2.parameter⟩ : QcParameter)])) := by
    unfold estimatedSamples
    rw [hst, hend, hfs]
  by_cases hf : QcBuffer.frontSamplingFrequency (pre ++ e1 :: (ts ++ [e2])) = -1
  · rw [availability, availability, if_neg hne1, if_neg hne2, if_pos hf,
      if_pos (by rw [← hfs]; exact hf)]
  · rw [availability_snd _ hne1 hf,
      availability_snd _ hne2 (by rw [← hfs]; exact hf),
      hst, hend, hestm]
    exact availLoop_counts_after_zero_end _ _ e1 ts e2 _ h1 h0 hts pre 0 0 0 0

theorem sentinel_skips_boundary_witness :
    gapOverlapUpdate 0 ⟨50, 60, 100, 0⟩ 3 4 = (3, 4) ∧
    (availability [⟨-5,0,100,0⟩, ⟨1/2,1,100,0⟩]).2
      = (availability [⟨-5,0,100,0⟩, ⟨50,1,100,0⟩]).2 := by
  refine ⟨sentinel_skips_boundary.1 ⟨50, 60, 100, 0⟩ 3 4, ?_⟩
  have h := sentinel_skips_boundary.2 [] ⟨-5,0,100,0⟩ [] ⟨1/2,1,100,0⟩ 50
    (by norm_num) rfl (by simp) (by norm_num)
  simpa using h

end Seiscomp

namespace Seiscomp

/-! ### C5 -/

lemma availLoop_break (tw : TimeWindow) (est eff g o : ℤ) (lt : ℚ)
    (e : QcParameter) (rest : List QcParameter)
    (hfs : e.recordSamplingFrequency ≠ -1)
    (hnc : ¬ TimeWindow.contains tw ⟨e.recordStartTime, e.recordEndTime⟩)
    (hc : TimeWindow.contains ⟨e.recordStartTime, e.recordEndTime⟩ tw) :
    availLoop tw est eff g o lt (e :: rest)
      = (est, (gapOverlapUpdate lt e g o).1, (gapOverlapUpdate lt e g o).2) := by
  rw [availLoop, if_neg hfs, if_neg hnc, if_pos hc]

lemma availability_of_first_break (e : QcParameter) (rest : List QcParameter)
    (hfs : e.recordSamplingFrequency ≠ -1)
    (hnc : ¬ TimeWindow.contains
        ⟨QcBuffer.startTime (e :: rest), QcBuffer.endTime (e :: rest)⟩
        ⟨e.recordStartTime, e.recordEndTime⟩)
    (hc : TimeWindow.contains ⟨e.recordStartTime, e.recordEndTime⟩
        ⟨QcBuffer.startTime (e :: rest), QcBuffer.endTime (e :: rest)⟩)
    (hest : estimatedSamples (e :: rest) ≠ 0) :
    availability (e :: rest) = (some 100, 0, 0) := by
  have hne : (e :: rest : QcBuffer) ≠ [] := by simp
  have hfr : QcBuffer.frontSamplingFrequency (e :: rest) ≠ -1 := hfs
  have hloop := availLoop_break
    ⟨QcBuffer.startTime (e :: rest), QcBuffer.endTime (e :: rest)⟩
    (estimatedSamples (e :: rest)) 0 0 0 0 e rest hfs hnc hc
  rw [gapOverlapUpdate_sentinel] at hloop
  have hq : ((estimatedSamples (e :: rest) : ℤ) : ℚ) ≠ 0 := Int.cast_ne_zero.mpr hest
  rw [availability, if_neg hne, if_neg hfr]
  simp only [hloop, if_neg hest]
  norm_num [mul_div_assoc, div_self hq]

/-- C5, corrected.  The break branch of the loop fires only when the
entry's record window contains the analysis window while the analysis
window does not contain the entry's window; when it fires the loop
terminates at that entry with effectiveSamples set to estimatedSamples,
so nothing after that entry is counted, and when estimatedSamples is
nonzero the result is availability 100 with the counts accumulated up to
and including that entry's detection step.  For the concrete buffer
(-5, 15, 100) then (20, 25, 100) the analysis window is [-5, 25), which
the first entry does not contain: no short-circuit occurs, the second
entry's gap is counted, and the result is (250/3, 1, 0). -/
theorem containment_short_circuit :
    (∀ (tw : TimeWindow) (est eff g o : ℤ) (lt : ℚ) (e : QcParameter)
       (rest : List QcParameter),
       e.recordSamplingFrequency ≠ -1 →
       ¬ TimeWindow.contains tw ⟨e.recordStartTime, e.recordEndTime⟩ →
       TimeWindow.contains ⟨e.recordStartTime, e.recordEndTime⟩ tw →
       availLoop tw est eff g o lt (e :: rest)
         = (est, (gapOverlapUpdate lt e g o).1, (gapOverlapUpdate lt e g o).2)) ∧
    (∀ (e : QcParameter) (rest : List QcParameter),
       e.recordSamplingFrequency ≠ -1 →
       ¬ TimeWindow.contains
           ⟨QcBuffer.startTime (e :: rest), QcBuffer.endTime (e :: rest)⟩
           ⟨e.recordStartTime, e.recordEndTime⟩ →
       TimeWindow.contains ⟨e.recordStartTime, e.recordEndTime⟩
           ⟨QcBuffer.startTime (e :: rest), QcBuffer.endTime (e :: rest)⟩ →
       estimatedSamples (e :: rest) ≠ 0 →
       availability (e :: rest) = (some 100, 0, 0)) ∧
    availability [⟨-5,15,100,0⟩, ⟨20,25,100,0⟩] = (some (250/3), 1, 0) := by
  refine ⟨fun tw est eff g o lt e rest h1 h2 h3 =>
      availLoop_break tw est eff g o lt e rest h1 h2 h3,
    fun e rest h1 h2 h3 h4 => availability_of_first_break e rest h1 h2 h3 h4, ?_⟩
  norm_num [availability, availLoop, estimatedSamples, Private.round,
    QcBuffer.startTime, QcBuffer.endTime, QcBuffer.frontSamplingFrequency,
    TimeWindow.length, TimeWindow.contains, TimeWindow.overlaps,
    gapOverlapUpdate, List.getLast?, List.cons_ne_nil]

theorem containment_short_circuit_witness :
    availLoop ⟨0, 2⟩ 200 0 0 0 0 [⟨0,10,100,0⟩, ⟨99,100,100,9⟩] = (200, 0, 0) ∧
    availability [⟨0,10,100,0⟩, ⟨1,2,100,0⟩] = (some 100, 0, 0) := by
  constructor
  · have h := containment_short_circuit.1 ⟨0, 2⟩ 200 0 0 0 0 ⟨0,10,100,0⟩
      [⟨99,100,100,9⟩] (by norm_num) (by norm_num [TimeWindow.contains])
      (by norm_num [TimeWindow.contains])
    rw [h, gapOverlapUpdate_sentinel]
  · exact containment_short_circuit.2.1 ⟨0,10,100,0⟩ [⟨1,2,100,0⟩]
      (by norm_num)
      (by norm_num [TimeWindow.contains, QcBuffer.startTime, QcBuffer.endTime,
        List.getLast?])
      (by norm_num [TimeWindow.contains, QcBuffer.startTime, QcBuffer.endTime,
        List.getLast?])
      (by norm_num [estimatedSamples, Private.round, QcBuffer.startTime,
        QcBuffer.endTime, QcBuffer.frontSamplingFrequency, TimeWindow.length,
        List.getLast?])

end Seiscomp

namespace Seiscomp

/-! ### C3 -/

lemma availLoop_fst_nonneg (tw : TimeWindow) (est : ℤ) :
    ∀ (l : List QcParameter), (∀ e ∈ l, ValidEntry e) →
    ∀ (eff g o : ℤ) (lt : ℚ), 0 ≤ eff →
      (availLoop tw est eff g o lt l).1 = est ∨ 0 ≤ (availLoop tw est eff g o lt l).1 := by
  intro l
  induction l with
  | nil =>
    intro _ eff g o lt he
    right
    simpa [availLoop] using he
  | cons qcp rest ih =>
    intro hv eff g o lt he
    have hvr : ∀ e ∈ rest, ValidEntry e := fun e hm => hv e (List.mem_cons_of_mem _ hm)
    have hvh : ValidEntry qcp := hv qcp (List.mem_cons_self _ _)
    simp only [availLoop]
    split_ifs with h1 h2 h3 h4 h5 h6
    · exact ih hvr eff g o lt he
    · refine ih hvr _ _ _ _ ?_
      have hreal : 0 < qcp.recordSamplingFrequency ∧
          qcp.recordStartTime < qcp.recordEndTime := by
        rcases hvh with h | h
        · exact h
        · exact absurd h h1
      have hsc : 0 ≤ Private.round (TimeWindow.length
          ⟨qcp.recordStartTime, qcp.recordEndTime⟩ * qcp.recordSamplingFrequency) := by
        apply round_nonneg
        have ha := hreal.1
        have hb := hreal.2
        simp only [TimeWindow.length]
        nlinarith
      linarith
    · left
      rfl
    · refine ih hvr _ _ _ _ ?_
      have hreal : 0 < qcp.recordSamplingFrequency ∧
          qcp.recordStartTime < qcp.recordEndTime := by
        rcases hvh with h | h
        · exact h
        · exact absurd h h1
      have ho1 : tw.startTime < qcp.recordEndTime := h4.1
      have hmono : Private.round ((tw.startTime - qcp.recordStartTime)
            * qcp.recordSamplingFrequency)
          ≤ Private.round (TimeWindow.length
            ⟨qcp.recordStartTime, qcp.recordEndTime⟩ * qcp.recordSamplingFrequency) := by
        apply round_le_round
        simp only [TimeWindow.length]
        exact mul_le_mul_of_nonneg_right (by linarith) (le_of_lt hreal.1)
      linarith
    · refine ih hvr _ _ _ _ ?_
      have hreal : 0 < qcp.recordSamplingFrequency ∧
          qcp.recordStartTime < qcp.recordEndTime := by
        rcases hvh with h | h
        · exact h
        · exact absurd h h1
      have ho2 : qcp.recordStartTime < tw.endTime := h4.2
      have hmono : Private.round ((qcp.recordEndTime - tw.endTime)
            * qcp.recordSamplingFrequency)
          ≤ Private.round (TimeWindow.length
            ⟨qcp.recordStartTime, qcp.recordEndTime⟩ * qcp.recordSamplingFrequency) := by
        apply round_le_round
        simp only [TimeWindow.length]
        exact mul_le_mul_of_nonneg_right (by linarith) (le_of_lt hreal.1)
      linarith
    · exact ih hvr eff _ _ _ he
    · exact ih hvr eff _ _ _ he

lemma availability_fst (buf : QcBuffer) (hne : buf ≠ [])
    (hfs : QcBuffer.frontSamplingFrequency buf ≠ -1) :
    (availability buf).1
      = (if estimatedSamples buf = 0 then none
         else if 100 < 100 * (((availLoop
                ⟨QcBuffer.startTime buf, QcBuffer.endTime buf⟩
                (estimatedSamples buf) 0 0 0 0 buf).1 : ℤ) : ℚ)
              / ((estimatedSamples buf : ℤ) : ℚ)
         then some 100
         else some (100 * (((availLoop
                ⟨QcBuffer.startTime buf, QcBuffer.endTime buf⟩
                (estimatedSamples buf) 0 0 0 0 buf).1 : ℤ) : ℚ)
              / ((estimatedSamples buf : ℤ) : ℚ))) := by
  rw [availability, if_neg hne, if_neg hfs]

/-- C3, corrected.  For every valid non-empty buffer fronted by a real
record whose estimated sample count is nonzero, the returned availability
is a value a with 0 ≤ a ≤ 100: the loop keeps effectiveSamples
nonnegative unless the break sets it to estimatedSamples, a negative
estimate forces the break at the front entry (yielding exactly 100), and
the final division is clamped from above at 100. -/
theorem availability_in_range (buf : QcBuffer)
    (hne : buf ≠ [])
    (hreal : QcBuffer.frontSamplingFrequency buf ≠ -1)
    (hv : ∀ e ∈ buf, ValidEntry e)
    (hest : estimatedSamples buf ≠ 0) :
    ∃ a, (availability buf).1 = some a ∧ 0 ≤ a ∧ a ≤ 100 := by
  obtain ⟨e0, rest, rfl⟩ := List.exists_cons_of_ne_nil hne
  have hne2 : (e0 :: rest : QcBuffer) ≠ [] := by simp
  have hfs0 : 0 < e0.recordSamplingFrequency ∧
      e0.recordStartTime < e0.recordEndTime := by
    rcases hv e0 (List.mem_cons_self _ _) with h | h
    · exact h
    · exact absurd h hreal
  have hq : ((estimatedSamples (e0 :: rest) : ℤ) : ℚ) ≠ 0 := Int.cast_ne_zero.mpr hest
  rw [availability_fst _ hne2 hreal, if_neg hest]
  rcases lt_trichotomy (estimatedSamples (e0 :: rest)) 0 with hneg | hzero | hpos
  · -- negative estimate: the loop breaks at the front entry
    have h1 : TimeWindow.length
        ⟨QcBuffer.startTime (e0 :: rest), QcBuffer.endTime (e0 :: rest)⟩
        * QcBuffer.frontSamplingFrequency (e0 :: rest) < 0 := neg_of_round_neg hneg
    have hsb : QcBuffer.startTime (e0 :: rest) = e0.recordStartTime := rfl
    have hff : QcBuffer.frontSamplingFrequency (e0 :: rest)
        = e0.recordSamplingFrequency := rfl
    simp only [TimeWindow.length, hsb, hff] at h1
    have hebs : QcBuffer.endTime (e0 :: rest) < e0.recordStartTime := by
      by_contra hcon
      push_neg at hcon
      have hge : 0 ≤ (QcBuffer.endTime (e0 :: rest) - e0.recordStartTime)
          * e0.recordSamplingFrequency :=
        mul_nonneg (by linarith) (le_of_lt hfs0.1)
      linarith
    have hnc : ¬ TimeWindow.contains
        ⟨QcBuffer.startTime (e0 :: rest), QcBuffer.endTime (e0 :: rest)⟩
        ⟨e0.recordStartTime, e0.recordEndTime⟩ := by
      intro hcon
      have h2 : e0.recordEndTime ≤ QcBuffer.endTime (e0 :: rest) := hcon.2
      have h3 := hfs0.2
      linarith
    have hc : TimeWindow.contains ⟨e0.recordStartTime, e0.recordEndTime⟩
        ⟨QcBuffer.startTime (e0 :: rest), QcBuffer.endTime (e0 :: rest)⟩ := by
      constructor
      · show e0.recordStartTime ≤ QcBuffer.startTime (e0 :: rest)
        rw [hsb]
      · show QcBuffer.endTime (e0 :: rest) ≤ e0.recordEndTime
        have h3 := hfs0.2
        linarith
    have hbr : (availLoop
        ⟨QcBuffer.startTime (e0 :: rest), QcBuffer.endTime (e0 :: rest)⟩
        (estimatedSamples (e0 :: rest)) 0 0 0 0 (e0 :: rest)).1
          = estimatedSamples (e0 :: rest) := by
      rw [availLoop_break _ _ 0 0 0 0 e0 rest hreal hnc hc]
    rw [hbr, mul_div_assoc, div_self hq, mul_one]
    refine ⟨100, ?_, by norm_num, le_refl 100⟩
    rw [if_neg (by norm_num : ¬(100:ℚ) < 100)]
  · exact absurd hzero hest
  · rcases availLoop_fst_nonneg
        ⟨QcBuffer.startTime (e0 :: rest), QcBuffer.endTime (e0 :: rest)⟩
        (estimatedSamples (e0 :: rest)) (e0 :: rest) hv 0 0 0 0 le_rfl with hbr | hnn
    · rw [hbr, mul_div_assoc, div_self hq, mul_one]
      refine ⟨100, ?_, by norm_num, le_refl 100⟩
      rw [if_neg (by norm_num : ¬(100:ℚ) < 100)]
    · have hr0 : 0 ≤ 100 * (((availLoop
          ⟨QcBuffer.startTime (e0 :: rest), QcBuffer.endTime (e0 :: rest)⟩
          (estimatedSamples (e0 :: rest)) 0 0 0 0 (e0 :: rest)).1 : ℤ) : ℚ)
            / ((estimatedSamples (e0 :: rest) : ℤ) : ℚ) := by
        apply div_nonneg
        · have hcast : (0:ℚ) ≤ (((availLoop
              ⟨QcBuffer.startTime (e0 :: rest), QcBuffer.endTime (e0 :: rest)⟩
              (estimatedSamples (e0 :: rest)) 0 0 0 0 (e0 :: rest)).1 : ℤ) : ℚ) := by
            exact_mod_cast hnn
          linarith
        · exact_mod_cast le_of_lt hpos
      by_cases hclamp : 100 < 100 * (((availLoop
          ⟨QcBuffer.startTime (e0 :: rest), QcBuffer.endTime (e0 :: rest)⟩
          (estimatedSamples (e0 :: rest)) 0 0 0 0 (e0 :: rest)).1 : ℤ) : ℚ)
            / ((estimatedSamples (e0 :: rest) : ℤ) : ℚ)
      · exact ⟨100, by rw [if_pos hclamp], by norm_num, le_refl 100⟩
      · exact ⟨_, by rw [if_neg hclamp], hr0, not_lt.mp hclamp⟩

theorem availability_in_range_witness :
    ∃ a, (availability [⟨0, 1, 100, 0⟩]).1 = some a ∧ 0 ≤ a ∧ a ≤ 100 :=
  availability_in_range [⟨0, 1, 100, 0⟩] (by simp)
    (by norm_num [QcBuffer.frontSamplingFrequency])
    (by intro e he
        simp only [List.mem_singleton] at he
        subst he
        exact Or.inl ⟨by norm_num, by norm_num⟩)
    (by norm_num [estimatedSamples, Private.round, QcBuffer.startTime,
      QcBuffer.endTime, QcBuffer.frontSamplingFrequency, TimeWindow.length,
      List.getLast?])

end Seiscomp

namespace Seiscomp

/-! ### C7 -/

lemma contains_scale (k a b c d : ℚ) (hk : 0 < k) :
    TimeWindow.contains ⟨k * a, k * b⟩ ⟨k * c, k * d⟩ ↔
      TimeWindow.contains ⟨a, b⟩ ⟨c, d⟩ := by
  show (k * a ≤ k * c ∧ k * d ≤ k * b) ↔ (a ≤ c ∧ d ≤ b)
  rw [mul_le_mul_left hk, mul_le_mul_left hk]

lemma overlaps_scale (k a b c d : ℚ) (hk : 0 < k) :
    TimeWindow.overlaps ⟨k * a, k * b⟩ ⟨k * c, k * d⟩ ↔
      TimeWindow.overlaps ⟨a, b⟩ ⟨c, d⟩ := by
  show (k * a < k * d ∧ k * c < k * b) ↔ (a < d ∧ c < b)
  rw [mul_lt_mul_left hk, mul_lt_mul_left hk]

lemma gapOverlapUpdate_scale (k : ℚ) (hk : 0 < k) (lt : ℚ) (e : QcParameter)
    (he : 0 < e.recordSamplingFrequency) (g o : ℤ) :
    gapOverlapUpdate (k * lt) (scaleEntry k e) g o = gapOverlapUpdate lt e g o := by
  have hk0 : k ≠ 0 := ne_of_gt hk
  have hf0 : e.recordSamplingFrequency ≠ 0 := ne_of_gt he
  by_cases hlt : lt = 0
  · subst hlt
    simp [gapOverlapUpdate]
  · have hklt : k * lt ≠ 0 := mul_ne_zero hk0 hlt
    have e1 : ((1:ℚ)/2 / (scaleEntry k e).recordSamplingFrequency
          < (scaleEntry k e).recordStartTime - k * lt)
        ↔ ((1:ℚ)/2 / e.recordSamplingFrequency < e.recordStartTime - lt) := by
      show ((1:ℚ)/2 / (e.recordSamplingFrequency / k)
          < k * e.recordStartTime - k * lt) ↔ _
      rw [show (1:ℚ)/2 / (e.recordSamplingFrequency / k)
            = k * ((1:ℚ)/2 / e.recordSamplingFrequency) by field_simp,
        show k * e.recordStartTime - k * lt = k * (e.recordStartTime - lt) by ring,
        mul_lt_mul_left hk]
    have e2 : ((scaleEntry k e).recordStartTime - k * lt
          < -((1:ℚ)/2 / (scaleEntry k e).recordSamplingFrequency))
        ↔ (e.recordStartTime - lt < -((1:ℚ)/2 / e.recordSamplingFrequency)) := by
      show (k * e.recordStartTime - k * lt
          < -((1:ℚ)/2 / (e.recordSamplingFrequency / k))) ↔ _
      rw [show -((1:ℚ)/2 / (e.recordSamplingFrequency / k))
            = k * -((1:ℚ)/2 / e.recordSamplingFrequency) by
          field_simp,
        show k * e.recordStartTime - k * lt = k * (e.recordStartTime - lt) by ring,
        mul_lt_mul_left hk]
    rw [gapOverlapUpdate, gapOverlapUpdate, if_pos hklt, if_pos hlt]
    simp only [e1, e2]

lemma availLoop_scale (k : ℚ) (hk : 0 < k) (a b : ℚ) (est : ℤ) :
    ∀ (l : List QcParameter), (∀ e ∈ l, 0 < e.recordSamplingFrequency) →
    ∀ (eff g o : ℤ) (lt : ℚ),
      availLoop ⟨k * a, k * b⟩ est eff g o (k * lt) (List.map (scaleEntry k) l)
        = availLoop ⟨a, b⟩ est eff g o lt l := by
  have hk0 : k ≠ 0 := ne_of_gt hk
  intro l
  induction l with
  | nil => intro _ eff g o lt; rfl
  | cons e rest ih =>
    intro hv eff g o lt
    have hfe : 0 < e.recordSamplingFrequency := hv e (List.mem_cons_self _ _)
    have hfe0 : e.recordSamplingFrequency ≠ 0 := ne_of_gt hfe
    have hvr : ∀ x ∈ rest, 0 < x.recordSamplingFrequency :=
      fun x hx => hv x (List.mem_cons_of_mem _ hx)
    have hs1 : (scaleEntry k e).recordStartTime = k * e.recordStartTime := rfl
    have hs2 : (scaleEntry k e).recordEndTime = k * e.recordEndTime := rfl
    have hs3 : (scaleEntry k e).recordSamplingFrequency
        = e.recordSamplingFrequency / k := rfl
    have hc1s : ¬ (e.recordSamplingFrequency / k = -1) := by
      intro hcon
      have hpos : 0 < e.recordSamplingFrequency / k := div_pos hfe hk
      rw [hcon] at hpos
      norm_num at hpos
    have hc1 : ¬ (e.recordSamplingFrequency = -1) := by
      intro hcon
      rw [hcon] at hfe
      norm_num at hfe
    have hsc : Private.round (TimeWindow.length
          ⟨k * e.recordStartTime, k * e.recordEndTime⟩
          * (e.recordSamplingFrequency / k))
        = Private.round (TimeWindow.length ⟨e.recordStartTime, e.recordEndTime⟩
          * e.recordSamplingFrequency) := by
      congr 1
      show (k * e.recordEndTime - k * e.recordStartTime)
          * (e.recordSamplingFrequency / k)
        = (e.recordEndTime - e.recordStartTime) * e.recordSamplingFrequency
      field_simp
      ring
    have hgo : gapOverlapUpdate (k * lt) (scaleEntry k e) g o
        = gapOverlapUpdate lt e g o := gapOverlapUpdate_scale k hk lt e hfe g o
    have hcont1 : TimeWindow.contains ⟨k * a, k * b⟩
          ⟨k * e.recordStartTime, k * e.recordEndTime⟩
        ↔ TimeWindow.contains ⟨a, b⟩ ⟨e.recordStartTime, e.recordEndTime⟩ :=
      contains_scale k a b e.recordStartTime e.recordEndTime hk
    have hcont2 : TimeWindow.contains ⟨k * e.recordStartTime, k * e.recordEndTime⟩
          ⟨k * a, k * b⟩
        ↔ TimeWindow.contains ⟨e.recordStartTime, e.recordEndTime⟩ ⟨a, b⟩ :=
      contains_scale k e.recordStartTime e.recordEndTime a b hk
    have hov : TimeWindow.overlaps ⟨k * a, k * b⟩
          ⟨k * e.recordStartTime, k * e.recordEndTime⟩
        ↔ TimeWindow.overlaps ⟨a, b⟩ ⟨e.recordStartTime, e.recordEndTime⟩ :=
      overlaps_scale k a b e.recordStartTime e.recordEndTime hk
    have hdt1 : (0 < k * a - k * e.recordStartTime) ↔ (0 < a - e.recordStartTime) := by
      constructor
      · intro h
        nlinarith
      · intro h
        have hx : k * a - k * e.recordStartTime = k * (a - e.recordStartTime) := by ring
        rw [hx]
        exact mul_pos hk h
    have hdt2 : (0 < k * e.recordEndTime - k * b) ↔ (0 < e.recordEndTime - b) := by
      constructor
      · intro h
        nlinarith
      · intro h
        have hx : k * e.recordEndTime - k * b = k * (e.recordEndTime - b) := by ring
        rw [hx]
        exact mul_pos hk h
    have hdtr1 : Private.round ((k * a - k * e.recordStartTime)
          * (e.recordSamplingFrequency / k))
        = Private.round ((a - e.recordStartTime) * e.recordSamplingFrequency) := by
      congr 1
      field_simp
      ring
    have hdtr2 : Private.round ((k * e.recordEndTime - k * b)
          * (e.recordSamplingFrequency / k))
        = Private.round ((e.recordEndTime - b) * e.recordSamplingFrequency) := by
      congr 1
      field_simp
      ring
    rw [List.map_cons]
    simp only [availLoop, hs1, hs2, hs3, hc1s, hc1, hsc, hgo, hcont1, hcont2, hov,
      hdt1, hdt2, hdtr1, hdtr2, ih hvr, if_false]

/-- C7, corrected.  The time dilation that leaves the evaluator invariant
scales all record times (hence durations and start/end separations) by a
positive factor k while dividing all sampling frequencies by k: under
that transformation the whole returned triple, in particular the gap and
overlap counts, is unchanged for every buffer of real (positive-rate)
entries. -/
theorem availability_scale_invariant (k : ℚ) (hk : 0 < k) (buf : QcBuffer)
    (hb : ∀ e ∈ buf, 0 < e.recordSamplingFrequency) :
    availability (List.map (scaleEntry k) buf) = availability buf := by
  have hk0 : k ≠ 0 := ne_of_gt hk
  cases buf with
  | nil => rfl
  | cons e rest =>
    have hfe : 0 < e.recordSamplingFrequency := hb e (List.mem_cons_self _ _)
    have hne1 : List.map (scaleEntry k) (e :: rest) ≠ [] := by simp
    have hne2 : (e :: rest : QcBuffer) ≠ [] := by simp
    have hf1 : QcBuffer.frontSamplingFrequency (List.map (scaleEntry k) (e :: rest))
        = e.recordSamplingFrequency / k := by
      rw [List.map_cons]
      rfl
    have hf2 : QcBuffer.frontSamplingFrequency (e :: rest)
        = e.recordSamplingFrequency := rfl
    have hc1s : QcBuffer.frontSamplingFrequency
        (List.map (scaleEntry k) (e :: rest)) ≠ -1 := by
      rw [hf1]
      intro hcon
      have hpos : 0 < e.recordSamplingFrequency / k := div_pos hfe hk
      rw [hcon] at hpos
      norm_num at hpos
    have hc1 : QcBuffer.frontSamplingFrequency (e :: rest) ≠ -1 := by
      rw [hf2]
      intro hcon
      rw [hcon] at hfe
      norm_num at hfe
    have hstart : QcBuffer.startTime (List.map (scaleEntry k) (e :: rest))
        = k * QcBuffer.startTime (e :: rest) := by
      rw [List.map_cons]
      rfl
    have hend : QcBuffer.endTime (List.map (scaleEntry k) (e :: rest))
        = k * QcBuffer.endTime (e :: rest) := by
      unfold QcBuffer.endTime
      rw [List.getLast?_map]
      cases hb2 : (e :: rest : List QcParameter).getLast? with
      | none => simp at hb2
      | some x => rfl
    have hestm : estimatedSamples (List.map (scaleEntry k) (e :: rest))
        = estimatedSamples (e :: rest) := by
      unfold estimatedSamples
      rw [hstart, hend, hf1, hf2]
      congr 1
      show (k * QcBuffer.endTime (e :: rest) - k * QcBuffer.startTime (e :: rest))
          * (e.recordSamplingFrequency / k)
        = (QcBuffer.endTime (e :: rest) - QcBuffer.startTime (e :: rest))
          * e.recordSamplingFrequency
      field_simp
      ring
    have hloop := availLoop_scale k hk (QcBuffer.startTime (e :: rest))
      (QcBuffer.endTime (e :: rest)) (estimatedSamples (e :: rest)) (e :: rest) hb
      0 0 0 0
    rw [mul_zero] at hloop
    rw [availability, availability, if_neg hne1, if_neg hne2, if_neg hc1s,
      if_neg hc1]
    simp only [hstart, hend, hestm, hloop]

theorem availability_scale_invariant_witness :
    availability (List.map (scaleEntry 2) [⟨0, 1, 100, 0⟩])
      = availability [⟨0, 1, 100, 0⟩] :=
  availability_scale_invariant 2 (by norm_num) [⟨0, 1, 100, 0⟩]
    (by intro e he
        simp only [List.mem_singleton] at he
        subst he
        norm_num)

end Seiscomp

namespace Seiscomp

/-- C5 counterexample: in the spec's own scenario the analysis window of
the buffer (-5, 15, 100), (20, 25, 100) is [-5, 25), which the first
entry's window [-5, 15) does not contain; no short-circuit occurs and
the evaluator does not return (100, 0, 0) — it counts the gap and
returns (250/3, 1, 0). -/
theorem containment_scenario_counterexample :
    QcBuffer.startTime [⟨-5,15,100,0⟩, ⟨20,25,100,0⟩] = -5 ∧
    QcBuffer.endTime [⟨-5,15,100,0⟩, ⟨20,25,100,0⟩] = 25 ∧
    ¬ TimeWindow.contains ⟨(-5 : ℚ), 15⟩ ⟨(-5 : ℚ), 25⟩ ∧
    availability [⟨-5,15,100,0⟩, ⟨20,25,100,0⟩] ≠ (some 100, 0, 0) := by
  have heval : availability [⟨-5,15,100,0⟩, ⟨20,25,100,0⟩]
      = (some (250/3), 1, 0) := by
    norm_num [availability, availLoop, estimatedSamples, Private.round,
      QcBuffer.startTime, QcBuffer.endTime, QcBuffer.frontSamplingFrequency,
      TimeWindow.length, TimeWindow.contains, TimeWindow.overlaps,
      gapOverlapUpdate, List.getLast?, List.cons_ne_nil]
  refine ⟨rfl, by norm_num [QcBuffer.endTime, List.getLast?],
    by norm_num [TimeWindow.contains], ?_⟩
  rw [heval]
  intro hcon
  rw [Prod.ext_iff, Prod.ext_iff] at hcon
  have h1 := hcon.1
  simp only [Option.some.injEq] at h1
  norm_num at h1

end Seiscomp
